import Mathlib

/-!
Verification of the ballistic impact-point predictor of `PySFS`
(`CalcAPI.impact_point` in `calc.py`).

The predictor is a pure numerical routine: it propagates a 2D point mass
under inverse-square gravity with a Velocity-Verlet integrator and reports
the first crossing of the circle of radius `R`, refined by a segment-circle
quadratic solve.  We embed it shallowly over `ℝ` (the Python floats become
real numbers, `math.sqrt` becomes `Real.sqrt`) and prove the specified
properties about the embedding.
-/

namespace PySFS

/-- The mutable loop state of `impact_point`: position `(x, y)`, velocity
`(vx, vy)` and the acceleration `(ax, ay)` computed at `(x, y)`. -/
structure VState where
  x : ℝ
  y : ℝ
  vx : ℝ
  vy : ℝ
  ax : ℝ
  ay : ℝ

/-- `vxh = vx + 0.5 * dt * ax`, `vyh = vy + 0.5 * dt * ay`
(the half-step velocity of one Verlet step). -/
def halfVel (dt : ℝ) (st : VState) : ℝ × ℝ :=
  (st.vx + 0.5 * dt * st.ax, st.vy + 0.5 * dt * st.ay)

/-- `x_new = x + dt * vxh`, `y_new = y + dt * vyh`
(the trial end position of one Verlet step). -/
def stepPos (dt : ℝ) (st : VState) : ℝ × ℝ :=
  (st.x + dt * (halfVel dt st).1, st.y + dt * (halfVel dt st).2)

/-- `d2_new = x_new * x_new + y_new * y_new`: squared distance of the step's
end position from the origin. -/
def stepD2 (dt : ℝ) (st : VState) : ℝ :=
  (stepPos dt st).1 * (stepPos dt st).1 + (stepPos dt st).2 * (stepPos dt st).2

/-- The acceleration computation of `impact_point` (used both at
initialization, lines 256-262, and inside the loop, lines 304-308):
`d = sqrt(d2)`, `inv_d = 1/d`, `inv_d3 = inv_d / d2`,
`a = (-mu * x * inv_d3, -mu * y * inv_d3)`. -/
noncomputable def codeAccel (mu x y : ℝ) : ℝ × ℝ :=
  let d2 := x * x + y * y
  let d := Real.sqrt d2
  let inv_d := 1 / d
  let inv_d3 := inv_d / d2
  (-mu * x * inv_d3, -mu * y * inv_d3)

/-- The surface-crossing refinement (lines 277-298): intersect the segment
from `r0` to `p` with the circle `|r|^2 = R2` by solving
`A s^2 + B s + C = 0`; among the roots `s1 <= s2` keep those in `[0, 1]`
and use the smallest; on failure (`A <= 0`, negative discriminant, or no
root in range) return the raw end position `p`.  Every branch returns a
point, mirroring the two `return` statements of the Python block. -/
noncomputable def crossRefine (R2 : ℝ) (r0 p : ℝ × ℝ) : ℝ × ℝ :=
  let dx := p.1 - r0.1
  let dy := p.2 - r0.2
  let A := dx * dx + dy * dy
  let B := 2 * (r0.1 * dx + r0.2 * dy)
  let C := (r0.1 * r0.1 + r0.2 * r0.2) - R2
  if 0 < A then
    let disc := B * B - 4 * A * C
    if 0 ≤ disc then
      let sqrt_disc := Real.sqrt disc
      let s1 := (-B - sqrt_disc) / (2 * A)
      let s2 := (-B + sqrt_disc) / (2 * A)
      if 0 ≤ s1 ∧ s1 ≤ 1 then
        if 0 ≤ s2 ∧ s2 ≤ 1 then
          (r0.1 + min s1 s2 * dx, r0.2 + min s1 s2 * dy)
        else (r0.1 + s1 * dx, r0.2 + s1 * dy)
      else if 0 ≤ s2 ∧ s2 ≤ 1 then (r0.1 + s2 * dx, r0.2 + s2 * dy)
      else p
    else p
  else p

/-- One committed integration step (lines 266-316 when neither the hit nor
the escape test fires): move to the trial position, recompute the
acceleration there, and complete the velocity update. -/
noncomputable def commit (mu dt : ℝ) (st : VState) : VState :=
  let vh := halfVel dt st
  let p := stepPos dt st
  let a := codeAccel mu p.1 p.2
  ⟨p.1, p.2, vh.1 + 0.5 * dt * a.1, vh.2 + 0.5 * dt * a.2, a.1, a.2⟩

/-- The main loop of `impact_point` (lines 265-318): at most `fuel` steps;
a step ending with `d2_new <= R2` returns the refined crossing point, a step
ending with `d2_new > max_d2` returns `none` (escape), otherwise the step is
committed; running out of steps returns `none`. -/
noncomputable def impactLoop (mu R2 max_d2 dt : ℝ) : ℕ → VState → Option (ℝ × ℝ)
  | 0, _ => none
  | n + 1, st =>
    if stepD2 dt st ≤ R2 then some (crossRefine R2 (st.x, st.y) (stepPos dt st))
    else if stepD2 dt st > max_d2 then none
    else impactLoop mu R2 max_d2 dt n (commit mu dt st)

/-- The state entering the loop: initial position, initial velocity, and
the initial acceleration computed at the initial position (lines 259-262). -/
noncomputable def initS (mu x y vx vy : ℝ) : VState :=
  ⟨x, y, vx, vy, (codeAccel mu x y).1, (codeAccel mu x y).2⟩

/-- `CalcAPI.impact_point` (lines 210-318).  Arguments mirror the Python
signature; the result `{"x": ..., "y": ...}` dict becomes a pair and the
Python `None` becomes `Option.none`.  `dt <= 0` is replaced by the default
`0.02`; `R2 = R*R`, `mu = g*R2`, `max_d2 = 1e12 * R2`; a start already
inside the surface returns immediately; the `d == 0` guard precedes the
initial acceleration computation. -/
noncomputable def impactPoint (rocket_x rocket_y vel_x vel_y planet_radius gravity : ℝ)
    (dt0 : ℝ) (max_steps : ℕ) : Option (ℝ × ℝ) :=
  let x := rocket_x
  let y := rocket_y
  let R := planet_radius
  let g := gravity
  let dt := if dt0 ≤ 0 then 0.02 else dt0
  let R2 := R * R
  let mu := g * R2
  let max_d2 := (10 : ℝ) ^ 12 * R2
  let d2 := x * x + y * y
  if d2 ≤ R2 then some (x, y)
  else
    let d := Real.sqrt d2
    if d = 0 then none
    else impactLoop mu R2 max_d2 dt max_steps (initS mu x y vel_x vel_y)

/-- `CalcAPI`: the class holding the method.  Its only per-instance state is
the `info` collaborator, which `impact_point` never reads; we keep the field
at an arbitrary type to model an arbitrary collaborator. -/
structure CalcAPI (Info : Type) where
  info : Info

/-- The method `CalcAPI.impact_point`: it touches none of `self`'s state. -/
noncomputable def CalcAPI.impact_point {Info : Type} (_api : CalcAPI Info)
    (rocket_x rocket_y vel_x vel_y planet_radius gravity dt0 : ℝ)
    (max_steps : ℕ) : Option (ℝ × ℝ) :=
  impactPoint rocket_x rocket_y vel_x vel_y planet_radius gravity dt0 max_steps

/-! ## Spec-side definitions

These follow the wording of the design spec, to be compared with the
code-side definitions above. -/

/-- Spec wording: "acceleration vector = −μ·r/|r|³". -/
noncomputable def accelSpec (mu : ℝ) (r : ℝ × ℝ) : ℝ × ℝ :=
  let n := Real.sqrt (r.1 * r.1 + r.2 * r.2)
  (-(mu * r.1) / (n * n * n), -(mu * r.2) / (n * n * n))

/-- Spec wording of one Velocity-Verlet step: (1) half-step velocity
`v + (dt/2)·a`, (2) full-step position `r + dt·v_half`, (3) new acceleration
at the new position, (4) completed velocity `v_half + (dt/2)·a_new`.
Returns (new position, new velocity). -/
noncomputable def verletStepSpec (mu dt : ℝ) (r v : ℝ × ℝ) : (ℝ × ℝ) × (ℝ × ℝ) :=
  let a := accelSpec mu r
  let vh := (v.1 + dt / 2 * a.1, v.2 + dt / 2 * a.2)
  let rn := (r.1 + dt * vh.1, r.2 + dt * vh.2)
  let an := accelSpec mu rn
  (rn, (vh.1 + dt / 2 * an.1, vh.2 + dt / 2 * an.2))

/-- Spec wording of the surface-crossing refinement: solve
`A·s² + B·s + C = 0` with `A = |Δ|²`, `B = 2·(r₀·Δ)`, `C = |r₀|² − R²`,
take the smaller root lying in `[0, 1]` and return `r₀ + s·Δ`; if `A = 0`
or no real root lies in `[0, 1]`, return the raw end position. -/
noncomputable def specCross (R2 : ℝ) (r0 p : ℝ × ℝ) : ℝ × ℝ :=
  let dx := p.1 - r0.1
  let dy := p.2 - r0.2
  let A := dx * dx + dy * dy
  let B := 2 * (r0.1 * dx + r0.2 * dy)
  let C := (r0.1 * r0.1 + r0.2 * r0.2) - R2
  let disc := B * B - 4 * A * C
  if A = 0 ∨ disc < 0 then p
  else
    let rootLo := (-B - Real.sqrt disc) / (2 * A)
    let rootHi := (-B + Real.sqrt disc) / (2 * A)
    if 0 ≤ rootLo ∧ rootLo ≤ 1 then (r0.1 + rootLo * dx, r0.2 + rootLo * dy)
    else if 0 ≤ rootHi ∧ rootHi ≤ 1 then (r0.1 + rootHi * dx, r0.2 + rootHi * dy)
    else p

/-! ## Checked variants

Python raises `ZeroDivisionError` on division by zero and `ValueError` on
`math.sqrt` of a negative number.  The checked variants make every division
and square root of the routine fallible, so "the code never raises" becomes
"the checked run returns `.ok`". -/

/-- `math.sqrt`, raising on a negative argument. -/
noncomputable def sqrtE (a : ℝ) : Except String ℝ :=
  if a < 0 then .error "math domain error" else .ok (Real.sqrt a)

/-- Float division, raising on a zero divisor. -/
noncomputable def divE (a b : ℝ) : Except String ℝ :=
  if b = 0 then .error "float division by zero" else .ok (a / b)

/-- Checked form of `codeAccel`. -/
noncomputable def codeAccelE (mu x y : ℝ) : Except String (ℝ × ℝ) := do
  let d2 := x * x + y * y
  let d ← sqrtE d2
  let inv_d ← divE 1 d
  let inv_d3 ← divE inv_d d2
  return (-mu * x * inv_d3, -mu * y * inv_d3)

/-- Checked form of `crossRefine`. -/
noncomputable def crossRefineE (R2 : ℝ) (r0 p : ℝ × ℝ) : Except String (ℝ × ℝ) :=
  let dx := p.1 - r0.1
  let dy := p.2 - r0.2
  let A := dx * dx + dy * dy
  let B := 2 * (r0.1 * dx + r0.2 * dy)
  let C := (r0.1 * r0.1 + r0.2 * r0.2) - R2
  if 0 < A then
    let disc := B * B - 4 * A * C
    if 0 ≤ disc then do
      let sqrt_disc ← sqrtE disc
      let s1 ← divE (-B - sqrt_disc) (2 * A)
      let s2 ← divE (-B + sqrt_disc) (2 * A)
      if 0 ≤ s1 ∧ s1 ≤ 1 then
        if 0 ≤ s2 ∧ s2 ≤ 1 then
          return (r0.1 + min s1 s2 * dx, r0.2 + min s1 s2 * dy)
        else return (r0.1 + s1 * dx, r0.2 + s1 * dy)
      else if 0 ≤ s2 ∧ s2 ≤ 1 then return (r0.1 + s2 * dx, r0.2 + s2 * dy)
      else return p
    else return p
  else return p

/-- Checked form of `impactLoop`. -/
noncomputable def impactLoopE (mu R2 max_d2 dt : ℝ) : ℕ → VState → Except String (Option (ℝ × ℝ))
  | 0, _ => .ok none
  | n + 1, st =>
    if stepD2 dt st ≤ R2 then do
      let p ← crossRefineE R2 (st.x, st.y) (stepPos dt st)
      return some p
    else if stepD2 dt st > max_d2 then .ok none
    else do
      let a ← codeAccelE mu (stepPos dt st).1 (stepPos dt st).2
      impactLoopE mu R2 max_d2 dt n
        ⟨(stepPos dt st).1, (stepPos dt st).2,
         (halfVel dt st).1 + 0.5 * dt * a.1, (halfVel dt st).2 + 0.5 * dt * a.2,
         a.1, a.2⟩

/-- Checked form of `impactPoint`, with the `d == 0` guard in place.  Every
division and square root of the original routine appears as a fallible
step. -/
noncomputable def impactPointE (rocket_x rocket_y vel_x vel_y planet_radius gravity : ℝ)
    (dt0 : ℝ) (max_steps : ℕ) : Except String (Option (ℝ × ℝ)) :=
  let x := rocket_x
  let y := rocket_y
  let R := planet_radius
  let g := gravity
  let dt := if dt0 ≤ 0 then 0.02 else dt0
  let R2 := R * R
  let mu := g * R2
  let max_d2 := (10 : ℝ) ^ 12 * R2
  let d2 := x * x + y * y
  if d2 ≤ R2 then .ok (some (x, y))
  else do
    let d ← sqrtE d2
    if d = 0 then .ok none
    else do
      let inv_d ← divE 1 d
      let inv_d3 ← divE inv_d d2
      impactLoopE mu R2 max_d2 dt max_steps
        ⟨x, y, vel_x, vel_y, -mu * x * inv_d3, -mu * y * inv_d3⟩

/-- `impactPoint` with the `d == 0` guard (line 257-258) removed. -/
noncomputable def impactPointNoGuard (rocket_x rocket_y vel_x vel_y planet_radius gravity : ℝ)
    (dt0 : ℝ) (max_steps : ℕ) : Option (ℝ × ℝ) :=
  let x := rocket_x
  let y := rocket_y
  let R := planet_radius
  let g := gravity
  let dt := if dt0 ≤ 0 then 0.02 else dt0
  let R2 := R * R
  let mu := g * R2
  let max_d2 := (10 : ℝ) ^ 12 * R2
  let d2 := x * x + y * y
  if d2 ≤ R2 then some (x, y)
  else impactLoop mu R2 max_d2 dt max_steps (initS mu x y vel_x vel_y)

/-! ## Outcome predicates for the loop -/

/-- The step taken from `st` ends on or inside the surface. -/
def impactsAt (R2 dt : ℝ) (st : VState) : Prop := stepD2 dt st ≤ R2

/-- The step taken from `st` ends beyond the divergence bound (and not
inside the surface, which is tested first). -/
def escapesAt (R2 max_d2 dt : ℝ) (st : VState) : Prop :=
  ¬ stepD2 dt st ≤ R2 ∧ stepD2 dt st > max_d2

/-- The step taken from `st` neither impacts nor escapes: the loop commits
it and continues. -/
def continuesAt (R2 max_d2 dt : ℝ) (st : VState) : Prop :=
  ¬ stepD2 dt st ≤ R2 ∧ ¬ stepD2 dt st > max_d2

/-! ## Claim C1 -/

/-- Claim C1 counterexample: with R = 1 > 0, g = 1 ≥ 0, velocity (1, 0) and
initial position exactly (0, 0), `impact_point` does not return `None`: the
immediate-hit check fires first (d2 = 0 ≤ R2) and the call returns the
origin itself. -/
theorem C1_counterexample :
    impactPoint 0 0 1 0 1 1 0.02 100 = some (0, 0) ∧
      impactPoint 0 0 1 0 1 1 0.02 100 ≠ none := by
  have h : impactPoint 0 0 1 0 1 1 0.02 100 = some (0, 0) := by
    norm_num [impactPoint]
  exact ⟨h, by simp [h]⟩

/-- Claim C1 amended: for every planet_radius R > 0, surface gravity and
velocity, calling `impact_point` with initial position exactly (0, 0)
returns `some (0, 0)` (the origin counts as an immediate hit because
0 = d2 ≤ R2 is tested before the d == 0 guard), not `None`. -/
theorem C1_origin_immediate_hit (vx vy R g dt0 : ℝ) (n : ℕ) (hR : 0 < R) :
    impactPoint 0 0 vx vy R g dt0 n = some (0, 0) := by
  have h : (0:ℝ) * 0 + 0 * 0 ≤ R * R := by nlinarith
  simp [impactPoint, h, mul_self_nonneg R]

/-- Witness for the amended C1 at concrete inputs. -/
theorem C1_origin_immediate_hit_witness :
    (0:ℝ) < 5 ∧ impactPoint 0 0 3 4 5 9 0.02 1000 = some (0, 0) :=
  ⟨by norm_num, C1_origin_immediate_hit 3 4 5 9 0.02 1000 (by norm_num)⟩

/-! ## Claim C2 -/

/-- Claim C2: for R > 0, if the initial position already satisfies
x² + y² ≤ R², the call returns exactly that position as the impact point,
for every velocity, gravity, dt and step budget (no integration performed:
the result is the same `some (x, y)` whatever vel_x, vel_y, g, dt and
max_steps are). -/
theorem C2_immediate_hit (x y vx vy R g dt0 : ℝ) (n : ℕ) (hR : 0 < R)
    (h : x * x + y * y ≤ R * R) :
    impactPoint x y vx vy R g dt0 n = some (x, y) := by
  simp [impactPoint, h]

/-- Witness for C2 at concrete inputs. -/
theorem C2_immediate_hit_witness :
    (0:ℝ) < 2 ∧ (1:ℝ) * 1 + 1 * 1 ≤ 2 * 2 ∧
      impactPoint 1 1 5 7 2 3 0.5 10 = some (1, 1) :=
  ⟨by norm_num, by norm_num,
    C2_immediate_hit 1 1 5 7 2 3 0.5 10 (by norm_num) (by norm_num)⟩

/-! ## Claim C8 -/

/-- Claim C8: determinism and absence of instance-state dependence: calling
the method on any two `CalcAPI` instances (over arbitrary collaborator
types) with identical numeric arguments yields identical results; in the
embedding the computation is a pure function of its arguments, so repeated
calls agree definitionally. -/
theorem C8_deterministic {I J : Type} (a : CalcAPI I) (b : CalcAPI J)
    (x y vx vy R g dt0 : ℝ) (n : ℕ) :
    a.impact_point x y vx vy R g dt0 n = b.impact_point x y vx vy R g dt0 n := rfl

/-! ## Claim C9 -/

/-- Claim C9: a non-positive dt is silently replaced by the default 0.02 at
call entry, so the result for dt ≤ 0 equals the result for dt = 0.02 with
all other inputs unchanged. -/
theorem C9_dt_default (x y vx vy R g dt0 : ℝ) (n : ℕ) (h : dt0 ≤ 0) :
    impactPoint x y vx vy R g dt0 n = impactPoint x y vx vy R g 0.02 n := by
  have h1 : (if dt0 ≤ 0 then (0.02:ℝ) else dt0) = 0.02 := if_pos h
  have h2 : (if (0.02:ℝ) ≤ 0 then (0.02:ℝ) else 0.02) = 0.02 := by
    rw [if_neg (by norm_num : ¬ (0.02:ℝ) ≤ 0)]
  simp only [impactPoint, h1, h2]

/-- Witness for C9 at concrete inputs. -/
theorem C9_dt_default_witness :
    (-1:ℝ) ≤ 0 ∧ impactPoint 6 8 1 2 3 4 (-1) 5 = impactPoint 6 8 1 2 3 4 0.02 5 :=
  ⟨by norm_num, C9_dt_default 6 8 1 2 3 4 (-1) 5 (by norm_num)⟩

/-! ## Code-side vs spec-side equivalences (shared helper lemmas) -/

/-- The acceleration computed by the code, `(-mu*x*((1/d)/d2), ...)` with
`d = sqrt d2`, equals the spec's `-mu·r/|r|³` (both give `0` at the
origin, where every division is by zero). -/
lemma codeAccel_eq_accelSpec (mu x y : ℝ) : codeAccel mu x y = accelSpec mu (x, y) := by
  simp only [codeAccel, accelSpec]
  have hdd : Real.sqrt (x * x + y * y) * Real.sqrt (x * x + y * y) = x * x + y * y :=
    Real.mul_self_sqrt (add_nonneg (mul_self_nonneg x) (mul_self_nonneg y))
  have key : ∀ z : ℝ,
      -mu * z * (1 / Real.sqrt (x * x + y * y) / (x * x + y * y)) =
        -(mu * z) / (Real.sqrt (x * x + y * y) * Real.sqrt (x * x + y * y) *
          Real.sqrt (x * x + y * y)) := by
    intro z
    rw [hdd, div_div, mul_one_div,
      mul_comm (Real.sqrt (x * x + y * y)) (x * x + y * y), neg_mul]
  exact Prod.ext (key x) (key y)

/-- The nested candidate-filtering of the code's refinement equals the
spec's "smaller root in range" selection (the key fact being
`s1 ≤ s2` whenever `A > 0` and the discriminant is nonnegative). -/
lemma crossRefine_eq_specCross (R2 : ℝ) (r0 p : ℝ × ℝ) :
    crossRefine R2 r0 p = specCross R2 r0 p := by
  simp only [crossRefine, specCross]
  set dx := p.1 - r0.1 with hdx
  set dy := p.2 - r0.2 with hdy
  set A := dx * dx + dy * dy with hA_def
  set B := 2 * (r0.1 * dx + r0.2 * dy) with hB_def
  set C := (r0.1 * r0.1 + r0.2 * r0.2) - R2 with hC_def
  have hA0 : 0 ≤ A := add_nonneg (mul_self_nonneg dx) (mul_self_nonneg dy)
  set sd := Real.sqrt (B * B - 4 * A * C) with hsd
  set s1 := (-B - sd) / (2 * A) with hs1
  set s2 := (-B + sd) / (2 * A) with hs2
  by_cases hA : 0 < A
  · by_cases hdisc : 0 ≤ B * B - 4 * A * C
    · rw [if_pos hA, if_pos hdisc,
        if_neg (show ¬ (A = 0 ∨ B * B - 4 * A * C < 0) by
          push_neg; exact ⟨hA.ne', hdisc⟩)]
      have h2A : (0:ℝ) < 2 * A := by linarith
      have hs12 : s1 ≤ s2 := by
        rw [hs1, hs2, div_le_div_iff_of_pos_right h2A]
        nlinarith [Real.sqrt_nonneg (B * B - 4 * A * C)]
      by_cases h1 : 0 ≤ s1 ∧ s1 ≤ 1
      · rw [if_pos h1, if_pos h1]
        by_cases h2 : 0 ≤ s2 ∧ s2 ≤ 1
        · rw [if_pos h2, min_eq_left hs12]
        · rw [if_neg h2]
      · rw [if_neg h1, if_neg h1]
    · rw [if_pos hA, if_neg hdisc,
        if_pos (show A = 0 ∨ B * B - 4 * A * C < 0 from Or.inr (not_le.mp hdisc))]
  · have hAz : A = 0 := le_antisymm (not_lt.mp hA) hA0
    rw [if_neg hA, if_pos (show A = 0 ∨ B * B - 4 * A * C < 0 from Or.inl hAz)]

/-! ## Claim C3 -/

/-- Claim C3: whenever a step's ending position falls within radius R
(squared-distance test) while the previous position lies strictly outside,
the loop returns the segment-circle crossing point described by the spec:
`r₀ + s·Δ` with `s` the smaller root in `[0, 1]` of `A·s² + B·s + C = 0`
(`A = |Δ|²`, `B = 2·(r₀·Δ)`, `C = |r₀|² − R²`), falling back to the raw end
position when `A = 0` or no real root lies in `[0, 1]`. -/
theorem C3_crossing_refinement (mu R2 max_d2 dt : ℝ) (n : ℕ) (st : VState)
    (hout : R2 < st.x * st.x + st.y * st.y)
    (hin : stepD2 dt st ≤ R2) :
    impactLoop mu R2 max_d2 dt (n + 1) st =
      some (specCross R2 (st.x, st.y) (stepPos dt st)) := by
  simp only [impactLoop, if_pos hin, crossRefine_eq_specCross]

/-- Witness for C3 at concrete inputs: one zero-gravity step from
(10.2, 0) with velocity (−10, 0) and dt = 0.02 ends exactly on the circle
of radius 10. -/
theorem C3_crossing_refinement_witness :
    (100:ℝ) < 10.2 * 10.2 + 0 * 0 ∧
      stepD2 0.02 ⟨10.2, 0, -10, 0, 0, 0⟩ ≤ 100 ∧
      impactLoop 0 100 100000 0.02 (0 + 1) ⟨10.2, 0, -10, 0, 0, 0⟩ =
        some (specCross 100 (10.2, 0) (stepPos 0.02 ⟨10.2, 0, -10, 0, 0, 0⟩)) :=
  ⟨by norm_num, by norm_num [stepD2, stepPos, halfVel],
    C3_crossing_refinement 0 100 100000 0.02 0 ⟨10.2, 0, -10, 0, 0, 0⟩
      (by norm_num) (by norm_num [stepD2, stepPos, halfVel])⟩

/-! ## Claim C4 -/

/-- Claim C4: every committed integration step follows the Velocity-Verlet
scheme with the inverse-square gravity model `a = −μ·r/|r|³`, `μ = g·R²`:
provided the stored acceleration is the spec acceleration at the current
position, one loop iteration that neither impacts nor escapes continues
with exactly the state `(r_new, v_new)` produced by the spec's four-stage
Verlet step, together with the spec acceleration at `r_new`. -/
theorem C4_verlet_step (mu R2 max_d2 dt g R : ℝ) (n : ℕ) (st : VState)
    (S : (ℝ × ℝ) × (ℝ × ℝ))
    (hmu : mu = g * (R * R))
    (hS : S = verletStepSpec mu dt (st.x, st.y) (st.vx, st.vy))
    (ha : st.ax = (accelSpec mu (st.x, st.y)).1 ∧ st.ay = (accelSpec mu (st.x, st.y)).2)
    (hin : ¬ S.1.1 * S.1.1 + S.1.2 * S.1.2 ≤ R2)
    (hesc : ¬ S.1.1 * S.1.1 + S.1.2 * S.1.2 > max_d2) :
    impactLoop mu R2 max_d2 dt (n + 1) st =
      impactLoop mu R2 max_d2 dt n
        ⟨S.1.1, S.1.2, S.2.1, S.2.2, (accelSpec mu S.1).1, (accelSpec mu S.1).2⟩ := by
  obtain ⟨ha1, ha2⟩ := ha
  have hp1 : (stepPos dt st).1 = S.1.1 := by
    rw [hS]; simp only [verletStepSpec, stepPos, halfVel]; rw [← ha1]; ring
  have hp2 : (stepPos dt st).2 = S.1.2 := by
    rw [hS]; simp only [verletStepSpec, stepPos, halfVel]; rw [← ha2]; ring
  have hd2 : stepD2 dt st = S.1.1 * S.1.1 + S.1.2 * S.1.2 := by
    simp only [stepD2]; rw [hp1, hp2]
  have hin' : ¬ stepD2 dt st ≤ R2 := by rw [hd2]; exact hin
  have hesc' : ¬ stepD2 dt st > max_d2 := by rw [hd2]; exact hesc
  have hacc : codeAccel mu (stepPos dt st).1 (stepPos dt st).2 = accelSpec mu S.1 := by
    rw [codeAccel_eq_accelSpec, hp1, hp2]
  have hv1 : (halfVel dt st).1 + 0.5 * dt * (accelSpec mu S.1).1 = S.2.1 := by
    rw [hS]
    simp only [verletStepSpec, halfVel]
    rw [← ha1]
    ring_nf
  have hv2 : (halfVel dt st).2 + 0.5 * dt * (accelSpec mu S.1).2 = S.2.2 := by
    rw [hS]
    simp only [verletStepSpec, halfVel]
    rw [← ha2]
    ring_nf
  have hcommit : commit mu dt st =
      ⟨S.1.1, S.1.2, S.2.1, S.2.2, (accelSpec mu S.1).1, (accelSpec mu S.1).2⟩ := by
    simp only [commit]
    rw [hacc, hp1, hp2, hv1, hv2]
  simp only [impactLoop, if_neg hin', if_neg hesc']
  rw [hcommit]

/-- Witness for C4 at concrete inputs (zero gravity, one step from
(100, 0) with velocity (−10, 0), dt = 1). -/
theorem C4_verlet_step_witness :
    ((0:ℝ) = 0 * (10 * 10)) ∧
      (((90:ℝ), (0:ℝ)), ((-10:ℝ), (0:ℝ))) = verletStepSpec 0 1 (100, 0) (-10, 0) ∧
      impactLoop 0 100 100000 1 (5 + 1) ⟨100, 0, -10, 0, 0, 0⟩ =
        impactLoop 0 100 100000 1 5
          ⟨90, 0, -10, 0, (accelSpec 0 (90, 0)).1, (accelSpec 0 (90, 0)).2⟩ := by
  have hS : (((90:ℝ), (0:ℝ)), ((-10:ℝ), (0:ℝ))) = verletStepSpec 0 1 (100, 0) (-10, 0) := by
    norm_num [verletStepSpec, accelSpec]
  refine ⟨by norm_num, hS, ?_⟩
  exact C4_verlet_step 0 100 100000 1 0 10 5 ⟨100, 0, -10, 0, 0, 0⟩
    (((90:ℝ), (0:ℝ)), ((-10:ℝ), (0:ℝ))) (by norm_num) hS
    ⟨by simp [accelSpec], by simp [accelSpec]⟩ (by norm_num) (by norm_num)

/-! ## Claim C5 -/

/-- Shared helper: the loop returns `none` exactly when either an escape
step occurs after a (possibly empty) run of committed steps, or the whole
fuel is spent on committed steps. -/
lemma impactLoop_none_iff (mu R2 max_d2 dt : ℝ) (n : ℕ) (st : VState) :
    impactLoop mu R2 max_d2 dt n st = none ↔
      ((∃ k < n, (∀ j < k, continuesAt R2 max_d2 dt ((commit mu dt)^[j] st)) ∧
          escapesAt R2 max_d2 dt ((commit mu dt)^[k] st)) ∨
        (∀ k < n, continuesAt R2 max_d2 dt ((commit mu dt)^[k] st))) := by
  induction n generalizing st with
  | zero => simp [impactLoop]
  | succ n ih =>
    by_cases h1 : stepD2 dt st ≤ R2
    · simp only [impactLoop, if_pos h1]
      apply iff_of_false
      · simp
      · rintro (⟨k, hk, hpre, hesc⟩ | hall)
        · rcases Nat.eq_zero_or_pos k with rfl | hkpos
          · rw [Function.iterate_zero_apply] at hesc
            exact hesc.1 h1
          · have := hpre 0 hkpos
            rw [Function.iterate_zero_apply] at this
            exact this.1 h1
        · have := hall 0 (Nat.succ_pos n)
          rw [Function.iterate_zero_apply] at this
          exact this.1 h1
    · by_cases h2 : stepD2 dt st > max_d2
      · simp only [impactLoop, if_neg h1, if_pos h2]
        refine iff_of_true trivial ?_
        refine Or.inl ⟨0, Nat.succ_pos n, fun j hj => absurd hj (Nat.not_lt_zero j), ?_⟩
        rw [Function.iterate_zero_apply]
        exact ⟨h1, h2⟩
      · simp only [impactLoop, if_neg h1, if_neg h2]
        rw [ih (commit mu dt st)]
        constructor
        · rintro (⟨k, hk, hpre, hesc⟩ | hall)
          · refine Or.inl ⟨k + 1, Nat.succ_lt_succ hk, ?_, ?_⟩
            · intro j hj
              rcases Nat.eq_zero_or_pos j with rfl | hjpos
              · rw [Function.iterate_zero_apply]
                exact ⟨h1, h2⟩
              · obtain ⟨j', rfl⟩ : ∃ i, j = i + 1 := ⟨j - 1, by omega⟩
                rw [Function.iterate_succ_apply]
                exact hpre j' (by omega)
            · rw [Function.iterate_succ_apply]
              exact hesc
          · refine Or.inr fun k hk => ?_
            rcases Nat.eq_zero_or_pos k with rfl | hkpos
            · rw [Function.iterate_zero_apply]
              exact ⟨h1, h2⟩
            · obtain ⟨k', rfl⟩ : ∃ i, k = i + 1 := ⟨k - 1, by omega⟩
              rw [Function.iterate_succ_apply]
              exact hall k' (by omega)
        · rintro (⟨k, hk, hpre, hesc⟩ | hall)
          · rcases Nat.eq_zero_or_pos k with rfl | hkpos
            · rw [Function.iterate_zero_apply] at hesc
              exact absurd hesc.2 h2
            · obtain ⟨k', rfl⟩ : ∃ i, k = i + 1 := ⟨k - 1, by omega⟩
              refine Or.inl ⟨k', by omega, ?_, ?_⟩
              · intro j hj
                have := hpre (j + 1) (by omega)
                rwa [Function.iterate_succ_apply] at this
              · rwa [Function.iterate_succ_apply] at hesc
          · refine Or.inr fun k hk => ?_
            have := hall (k + 1) (by omega)
            rwa [Function.iterate_succ_apply] at this

/-- Claim C5: for a start strictly outside the surface and a positive dt,
`impact_point` returns `none` in exactly two loop-terminating cases: (a) an
escape step — a step ending beyond `(10⁶·R)²` in squared distance (and not
within R, which is tested first) after a run of committed steps — or (b)
the committed steps exhaust the whole `max_steps` budget. -/
theorem C5_none_cases (x y vx vy R g dt0 : ℝ) (n : ℕ)
    (hdt : 0 < dt0) (h0 : ¬ x * x + y * y ≤ R * R) :
    impactPoint x y vx vy R g dt0 n = none ↔
      ((∃ k < n, (∀ j < k, continuesAt (R * R) ((10:ℝ)^12 * (R * R)) dt0
            ((commit (g * (R * R)) dt0)^[j] (initS (g * (R * R)) x y vx vy))) ∧
          escapesAt (R * R) ((10:ℝ)^12 * (R * R)) dt0
            ((commit (g * (R * R)) dt0)^[k] (initS (g * (R * R)) x y vx vy))) ∨
        (∀ k < n, continuesAt (R * R) ((10:ℝ)^12 * (R * R)) dt0
            ((commit (g * (R * R)) dt0)^[k] (initS (g * (R * R)) x y vx vy)))) := by
  have hd2pos : 0 < x * x + y * y := lt_of_le_of_lt (mul_self_nonneg R) (not_le.mp h0)
  have hguard : Real.sqrt (x * x + y * y) ≠ 0 := by
    rw [Real.sqrt_ne_zero']; exact hd2pos
  have hdt' : ¬ dt0 ≤ 0 := not_le.mpr hdt
  rw [show impactPoint x y vx vy R g dt0 n =
      impactLoop (g * (R * R)) (R * R) ((10:ℝ)^12 * (R * R)) dt0 n
        (initS (g * (R * R)) x y vx vy) from by
    simp only [impactPoint, if_neg hdt', if_neg h0, if_neg hguard]]
  exact impactLoop_none_iff _ _ _ _ n _

/-- Witness for C5 at concrete inputs. -/
theorem C5_none_cases_witness :
    (0:ℝ) < 1 ∧ ¬ (100:ℝ) * 100 + 0 * 0 ≤ 10 * 10 ∧
      (impactPoint 100 0 0 0 10 0 1 3 = none ↔
        ((∃ k < 3, (∀ j < k, continuesAt ((10:ℝ) * 10) ((10:ℝ)^12 * (10 * 10)) 1
              ((commit (0 * ((10:ℝ) * 10)) 1)^[j] (initS (0 * ((10:ℝ) * 10)) 100 0 0 0))) ∧
            escapesAt ((10:ℝ) * 10) ((10:ℝ)^12 * (10 * 10)) 1
              ((commit (0 * ((10:ℝ) * 10)) 1)^[k] (initS (0 * ((10:ℝ) * 10)) 100 0 0 0))) ∨
          (∀ k < 3, continuesAt ((10:ℝ) * 10) ((10:ℝ)^12 * (10 * 10)) 1
              ((commit (0 * ((10:ℝ) * 10)) 1)^[k] (initS (0 * ((10:ℝ) * 10)) 100 0 0 0))))) :=
  ⟨by norm_num, by norm_num,
    C5_none_cases 100 0 0 0 10 0 1 3 (by norm_num) (by norm_num)⟩

/-! ## Claim C7: the checked run never errors -/

/-- `Except` bind on a success reduces to the continuation. -/
lemma ok_bind {α β : Type} (a : α) (f : α → Except String β) :
    (do let x ← Except.ok a; f x) = f a := rfl

/-- `sqrtE` succeeds on nonnegative arguments. -/
lemma sqrtE_ok {a : ℝ} (h : 0 ≤ a) : sqrtE a = .ok (Real.sqrt a) :=
  if_neg (not_lt.mpr h)

/-- `divE` succeeds on nonzero divisors. -/
lemma divE_ok (a : ℝ) {b : ℝ} (h : b ≠ 0) : divE a b = .ok (a / b) :=
  if_neg h

/-- The checked acceleration succeeds away from the origin and agrees with
the unchecked one. -/
lemma codeAccelE_ok (mu x y : ℝ) (h : 0 < x * x + y * y) :
    codeAccelE mu x y = .ok (codeAccel mu x y) := by
  have hd : Real.sqrt (x * x + y * y) ≠ 0 := by rw [Real.sqrt_ne_zero']; exact h
  simp only [codeAccelE, codeAccel]
  rw [sqrtE_ok (le_of_lt h), ok_bind, divE_ok 1 hd, ok_bind,
    divE_ok _ (ne_of_gt h), ok_bind]
  rfl

/-- The checked refinement always succeeds (every division it performs is
guarded by `A > 0`, every square root by `disc >= 0`) and agrees with the
unchecked one. -/
lemma crossRefineE_ok (R2 : ℝ) (r0 p : ℝ × ℝ) :
    crossRefineE R2 r0 p = .ok (crossRefine R2 r0 p) := by
  simp only [crossRefineE, crossRefine]
  set dx := p.1 - r0.1 with hdx
  set dy := p.2 - r0.2 with hdy
  set A := dx * dx + dy * dy with hA_def
  set B := 2 * (r0.1 * dx + r0.2 * dy) with hB_def
  set C := (r0.1 * r0.1 + r0.2 * r0.2) - R2 with hC_def
  by_cases hA : 0 < A
  · rw [if_pos hA, if_pos hA]
    by_cases hdisc : 0 ≤ B * B - 4 * A * C
    · have h2A : (2 : ℝ) * A ≠ 0 := ne_of_gt (by linarith)
      rw [if_pos hdisc, if_pos hdisc, sqrtE_ok hdisc, ok_bind,
        divE_ok _ h2A, ok_bind, divE_ok _ h2A, ok_bind]
      split_ifs <;> rfl
    · rw [if_neg hdisc, if_neg hdisc]
      rfl
  · rw [if_neg hA, if_neg hA]
    rfl

/-- The checked loop succeeds whenever `R2` is nonnegative (each committed
step recomputes the acceleration at a position strictly outside the
surface, hence away from the origin) and agrees with the unchecked loop. -/
lemma impactLoopE_ok (mu R2 max_d2 dt : ℝ) (hR2 : 0 ≤ R2) (n : ℕ) :
    ∀ st : VState, impactLoopE mu R2 max_d2 dt n st =
      .ok (impactLoop mu R2 max_d2 dt n st) := by
  induction n with
  | zero => intro st; rfl
  | succ n ih =>
    intro st
    by_cases h1 : stepD2 dt st ≤ R2
    · simp only [impactLoopE, impactLoop, if_pos h1]
      rw [crossRefineE_ok, ok_bind]
      rfl
    · by_cases h2 : stepD2 dt st > max_d2
      · simp only [impactLoopE, impactLoop, if_neg h1, if_pos h2]
      · simp only [impactLoopE, impactLoop, if_neg h1, if_neg h2]
        have hpos : 0 < (stepPos dt st).1 * (stepPos dt st).1 +
            (stepPos dt st).2 * (stepPos dt st).2 :=
          lt_of_le_of_lt hR2 (not_le.mp h1)
        rw [codeAccelE_ok mu _ _ hpos, ok_bind]
        have hc : (⟨(stepPos dt st).1, (stepPos dt st).2,
            (halfVel dt st).1 + 0.5 * dt *
              (codeAccel mu (stepPos dt st).1 (stepPos dt st).2).1,
            (halfVel dt st).2 + 0.5 * dt *
              (codeAccel mu (stepPos dt st).1 (stepPos dt st).2).2,
            (codeAccel mu (stepPos dt st).1 (stepPos dt st).2).1,
            (codeAccel mu (stepPos dt st).1 (stepPos dt st).2).2⟩ : VState) =
            commit mu dt st := by
          simp only [commit]
        rw [hc]
        exact ih (commit mu dt st)

/-- Shared helper: for every R > 0, the fully checked run of
`impact_point` returns `.ok` of the unchecked result — no division by zero
and no square root of a negative number ever occurs. -/
lemma impactPointE_eq_ok (x y vx vy R g dt0 : ℝ) (n : ℕ) (hR : 0 < R) :
    impactPointE x y vx vy R g dt0 n = .ok (impactPoint x y vx vy R g dt0 n) := by
  have hR2 : (0:ℝ) ≤ R * R := mul_self_nonneg R
  by_cases h0 : x * x + y * y ≤ R * R
  · simp only [impactPointE, impactPoint, if_pos h0]
  · have hd2pos : 0 < x * x + y * y := lt_trans (mul_pos hR hR) (not_le.mp h0)
    have hguard : Real.sqrt (x * x + y * y) ≠ 0 := by
      rw [Real.sqrt_ne_zero']; exact hd2pos
    simp only [impactPointE, impactPoint, if_neg h0]
    rw [sqrtE_ok (le_of_lt hd2pos), ok_bind, if_neg hguard, if_neg hguard,
      divE_ok 1 hguard, ok_bind, divE_ok _ (ne_of_gt hd2pos), ok_bind]
    simp only [initS, codeAccel]
    exact impactLoopE_ok _ _ _ _ hR2 n _

/-- Claim C7: for every finite input with R > 0 and g ≥ 0, `impact_point`
raises no exception: the checked run (in which every division and square
root of the routine is fallible) returns `.ok` of the plain result, which
by type is either a coordinate pair or `none` — `none` being the sole
representation of every non-impact outcome. -/
theorem C7_no_exceptions (x y vx vy R g dt0 : ℝ) (n : ℕ) (hR : 0 < R) (hg : 0 ≤ g) :
    impactPointE x y vx vy R g dt0 n = .ok (impactPoint x y vx vy R g dt0 n) :=
  impactPointE_eq_ok x y vx vy R g dt0 n hR

/-- Witness for C7 at concrete inputs. -/
theorem C7_no_exceptions_witness :
    (0:ℝ) < 2 ∧ (0:ℝ) ≤ 3 ∧
      impactPointE 1 0 4 5 2 3 0.02 7 = .ok (impactPoint 1 0 4 5 2 3 0.02 7) :=
  ⟨by norm_num, by norm_num,
    C7_no_exceptions 1 0 4 5 2 3 0.02 7 (by norm_num) (by norm_num)⟩

/-! ## Claim C10 -/

/-- Claim C10: for R > 0 every reciprocal-distance computation of the
routine happens at squared distance strictly above R² > 0 (expressed by the
checked run succeeding), and the explicit `d == 0` guard after the
immediate-hit check is unreachable: deleting it does not change the result
of any call. -/
theorem C10_guard_unreachable (x y vx vy R g dt0 : ℝ) (n : ℕ) (hR : 0 < R) :
    impactPoint x y vx vy R g dt0 n = impactPointNoGuard x y vx vy R g dt0 n ∧
      impactPointE x y vx vy R g dt0 n =
        .ok (impactPointNoGuard x y vx vy R g dt0 n) := by
  have hmain : impactPoint x y vx vy R g dt0 n = impactPointNoGuard x y vx vy R g dt0 n := by
    by_cases h0 : x * x + y * y ≤ R * R
    · simp only [impactPoint, impactPointNoGuard, if_pos h0]
    · have hd2pos : 0 < x * x + y * y := lt_trans (mul_pos hR hR) (not_le.mp h0)
      have hguard : Real.sqrt (x * x + y * y) ≠ 0 := by
        rw [Real.sqrt_ne_zero']; exact hd2pos
      simp only [impactPoint, impactPointNoGuard, if_neg h0, if_neg hguard]
  exact ⟨hmain, hmain ▸ impactPointE_eq_ok x y vx vy R g dt0 n hR⟩

/-- Witness for C10 at concrete inputs. -/
theorem C10_guard_unreachable_witness :
    (0:ℝ) < 2 ∧
      (impactPoint 1 0 4 5 2 3 0.5 7 = impactPointNoGuard 1 0 4 5 2 3 0.5 7 ∧
        impactPointE 1 0 4 5 2 3 0.5 7 = .ok (impactPointNoGuard 1 0 4 5 2 3 0.5 7)) :=
  ⟨by norm_num, C10_guard_unreachable 1 0 4 5 2 3 0.5 7 (by norm_num)⟩

/-! ## Claim C6: the zero-gravity straight-line case -/

/-- With zero gravity the committed step is pure straight-line motion. -/
lemma commit_zeroG (dt x v : ℝ) :
    commit 0 dt ⟨x, 0, v, 0, 0, 0⟩ = ⟨x + dt * v, 0, v, 0, 0, 0⟩ := by
  simp [commit, halfVel, stepPos, codeAccel]

/-- `Real.sqrt 16 = 4`, the only square root the dt = 0.02 run evaluates in
its refinement step. -/
lemma sqrt_sixteen : Real.sqrt 16 = 4 := by
  rw [show (16:ℝ) = 4 ^ 2 by norm_num, Real.sqrt_sq (by norm_num : (0:ℝ) ≤ 4)]

/-- The refinement of the final dt = 0.02 segment, from (10.2, 0) to
(10, 0), lands exactly on (10, 0) (the root s = 1 of the quadratic). -/
lemma crossRefine_ten :
    crossRefine 100 ((10.2:ℝ), (0:ℝ)) ((10:ℝ), (0:ℝ)) = ((10:ℝ), (0:ℝ)) := by
  norm_num [crossRefine, sqrt_sixteen]

/-- Zero-gravity run with dt = 0.02 along the x-axis: starting at
`x = 10 + 0.2·(m+1)` with velocity −10, the loop reaches 10.2, steps onto
the circle at exactly (10, 0), and returns it. -/
lemma loopA : ∀ m n : ℕ, ∀ x : ℝ,
    x = 10 + 0.2 * ((m : ℝ) + 1) → x ≤ 100 → m < n →
    impactLoop 0 100 ((10:ℝ)^12 * 100) 0.02 n ⟨x, 0, -10, 0, 0, 0⟩ =
      some ((10:ℝ), (0:ℝ)) := by
  intro m
  induction m with
  | zero =>
    intro n x hx hxle hn
    obtain ⟨i, rfl⟩ : ∃ i, n = i + 1 := ⟨n - 1, by omega⟩
    have hx2 : x = 10.2 := by rw [hx]; norm_num
    subst hx2
    have hhit : stepD2 0.02 (⟨10.2, 0, -10, 0, 0, 0⟩ : VState) ≤ 100 := by
      norm_num [stepD2, stepPos, halfVel]
    have hsp : stepPos 0.02 (⟨10.2, 0, -10, 0, 0, 0⟩ : VState) = ((10:ℝ), (0:ℝ)) := by
      norm_num [stepPos, halfVel]
    simp only [impactLoop, if_pos hhit, hsp]
    rw [show ((⟨10.2, 0, -10, 0, 0, 0⟩ : VState).x, (⟨10.2, 0, -10, 0, 0, 0⟩ : VState).y)
        = ((10.2:ℝ), (0:ℝ)) from rfl, crossRefine_ten]
  | succ m ihm =>
    intro n x hx hxle hn
    obtain ⟨i, rfl⟩ : ∃ i, n = i + 1 := ⟨n - 1, by omega⟩
    have hge : (10.4:ℝ) ≤ x := by
      rw [hx]; push_cast
      nlinarith [Nat.cast_nonneg (α := ℝ) m]
    have hsd2 : stepD2 0.02 (⟨x, 0, -10, 0, 0, 0⟩ : VState) = (x - 0.2) * (x - 0.2) := by
      simp only [stepD2, stepPos, halfVel]; ring
    have hnot1 : ¬ stepD2 0.02 (⟨x, 0, -10, 0, 0, 0⟩ : VState) ≤ 100 := by
      rw [hsd2]; push_neg; nlinarith
    have hnot2 : ¬ stepD2 0.02 (⟨x, 0, -10, 0, 0, 0⟩ : VState) > (10:ℝ)^12 * 100 := by
      rw [hsd2]; push_neg; nlinarith
    simp only [impactLoop, if_neg hnot1, if_neg hnot2]
    rw [commit_zeroG]
    exact ihm i (x + 0.02 * (-10)) (by rw [hx]; push_cast; ring) (by linarith) (by omega)

/-- Shared helper: the concrete no-gravity head-on case with the default
dt: start (100, 0), velocity (−10, 0), R = 10, g = 0, dt = 0.02 returns
exactly (10, 0) — the analytic straight-line intersection with the circle,
with no discretization error at all. -/
lemma straight_line_default_dt :
    impactPoint 100 0 (-10) 0 10 0 0.02 100000 = some ((10:ℝ), (0:ℝ)) := by
  have h0 : ¬ (100:ℝ) * 100 + 0 * 0 ≤ 10 * 10 := by norm_num
  have hguard : Real.sqrt ((100:ℝ) * 100 + 0 * 0) ≠ 0 := by
    rw [Real.sqrt_ne_zero']; norm_num
  have hdt : ¬ (0.02:ℝ) ≤ 0 := by norm_num
  simp only [impactPoint, if_neg hdt, if_neg h0, if_neg hguard]
  have hinit : initS (0 * ((10:ℝ) * 10)) 100 0 (-10) 0 =
      (⟨100, 0, -10, 0, 0, 0⟩ : VState) := by
    simp [initS, codeAccel]
  rw [hinit, show (0:ℝ) * (10 * 10) = 0 from by norm_num,
    show ((10:ℝ) * 10) = 100 from by norm_num]
  exact loopA 449 100000 100 (by push_cast; norm_num) (by norm_num) (by norm_num)

/-- Zero-gravity run with dt = 4: from any x ≤ −10 (moving in −x), every
step stays strictly outside the circle, so the loop never reports an
impact and eventually returns `none` (by escape or by fuel exhaustion). -/
lemma loopB : ∀ n : ℕ, ∀ x : ℝ, x ≤ -10 →
    impactLoop 0 100 ((10:ℝ)^12 * 100) 4 n ⟨x, 0, -10, 0, 0, 0⟩ = none := by
  intro n
  induction n with
  | zero => intro x hx; rfl
  | succ n ih =>
    intro x hx
    have hsd2 : stepD2 4 (⟨x, 0, -10, 0, 0, 0⟩ : VState) = (x - 40) * (x - 40) := by
      simp only [stepD2, stepPos, halfVel]; ring
    have hnot1 : ¬ stepD2 4 (⟨x, 0, -10, 0, 0, 0⟩ : VState) ≤ 100 := by
      rw [hsd2]; push_neg; nlinarith
    by_cases hesc : stepD2 4 (⟨x, 0, -10, 0, 0, 0⟩ : VState) > (10:ℝ)^12 * 100
    · simp only [impactLoop, if_neg hnot1, if_pos hesc]
    · simp only [impactLoop, if_neg hnot1, if_neg hesc]
      rw [commit_zeroG]
      exact ih (x + 4 * (-10)) (by linarith)

/-- One non-impacting, non-escaping dt = 4 step along the x-axis. -/
lemma loop_stepB (n : ℕ) (x : ℝ)
    (h1 : ¬ (x - 40) * (x - 40) ≤ 100)
    (h2 : ¬ (x - 40) * (x - 40) > (10:ℝ)^12 * 100) :
    impactLoop 0 100 ((10:ℝ)^12 * 100) 4 (n + 1) ⟨x, 0, -10, 0, 0, 0⟩ =
      impactLoop 0 100 ((10:ℝ)^12 * 100) 4 n ⟨x + 4 * (-10), 0, -10, 0, 0, 0⟩ := by
  have hsd2 : stepD2 4 (⟨x, 0, -10, 0, 0, 0⟩ : VState) = (x - 40) * (x - 40) := by
    simp only [stepD2, stepPos, halfVel]; ring
  simp only [impactLoop, hsd2, if_neg h1, if_neg h2]
  rw [commit_zeroG]

/-- Claim C6 counterexample: the same no-gravity head-on case with dt = 4
(a step length of 40) jumps across the whole disc between x = 20 and
x = −20 without ever ending a step inside it, so the call returns `none`
instead of a point near (10, 0): the result is not dt-independent. -/
theorem C6_counterexample :
    impactPoint 100 0 (-10) 0 10 0 4 100000 = none := by
  have h0 : ¬ (100:ℝ) * 100 + 0 * 0 ≤ 10 * 10 := by norm_num
  have hguard : Real.sqrt ((100:ℝ) * 100 + 0 * 0) ≠ 0 := by
    rw [Real.sqrt_ne_zero']; norm_num
  have hdt : ¬ (4:ℝ) ≤ 0 := by norm_num
  simp only [impactPoint, if_neg hdt, if_neg h0, if_neg hguard]
  have hinit : initS (0 * ((10:ℝ) * 10)) 100 0 (-10) 0 =
      (⟨100, 0, -10, 0, 0, 0⟩ : VState) := by
    simp [initS, codeAccel]
  rw [hinit, show (0:ℝ) * (10 * 10) = 0 from by norm_num,
    show ((10:ℝ) * 10) = 100 from by norm_num,
    show (100000 : ℕ) = 99997 + 1 + 1 + 1 from by norm_num]
  rw [loop_stepB _ 100 (by norm_num) (by norm_num)]
  rw [show (100:ℝ) + 4 * (-10) = 60 from by norm_num]
  rw [loop_stepB _ 60 (by norm_num) (by norm_num)]
  rw [show (60:ℝ) + 4 * (-10) = 20 from by norm_num]
  rw [loop_stepB _ 20 (by norm_num) (by norm_num)]
  rw [show (20:ℝ) + 4 * (-10) = -20 from by norm_num]
  exact loopB 99997 (-20) (by norm_num)

/-- Shared helper: whenever a step segment starts strictly outside the
circle (`|r0|² > R2`) and ends on or inside it (`|p|² ≤ R2`), the quadratic
refinement succeeds — `A > 0`, the discriminant is nonnegative, and the
smaller root lies in `[0, 1]` — and the returned point `r0 + s·Δ` lies
exactly on the circle: the refinement removes all radial discretization
error. -/
lemma quad_disc_nonneg (A B C : ℝ) (hA : 0 < A) (hC : 0 < C)
    (hsum : A + B + C ≤ 0) : 0 ≤ B * B - 4 * A * C := by
  nlinarith [mul_nonneg (by linarith : (0:ℝ) ≤ -(A + B + C))
    (by linarith : (0:ℝ) ≤ A + C), sq_nonneg (A - C)]

lemma quad_smaller_root (A B C sd : ℝ) (hA : 0 < A) (hC : 0 < C)
    (hsum : A + B + C ≤ 0) (hsd0 : 0 ≤ sd)
    (hsd2 : sd * sd = B * B - 4 * A * C) :
    (0 ≤ (-B - sd) / (2 * A) ∧ (-B - sd) / (2 * A) ≤ 1) ∧
      (-B - sd) / (2 * A) ≤ (-B + sd) / (2 * A) ∧
      A * ((-B - sd) / (2 * A) * ((-B - sd) / (2 * A))) +
        B * ((-B - sd) / (2 * A)) + C = 0 := by
  have h2A : (0:ℝ) < 2 * A := by linarith
  have hBneg : B ≤ -(A + C) := by linarith
  have hB2 : sd * sd ≤ B * B := by
    rw [hsd2]; nlinarith [mul_pos hA hC]
  have hsd_le : sd ≤ -B := by nlinarith [hB2, hsd0, hA, hC]
  have hs1_nonneg : 0 ≤ (-B - sd) / (2 * A) :=
    div_nonneg (by linarith) (le_of_lt h2A)
  have hs1_le : (-B - sd) / (2 * A) ≤ 1 := by
    rw [div_le_one h2A]
    rcases le_or_lt (-B - 2 * A) 0 with ht | ht
    · linarith
    · have hsq : (-B - 2 * A) * (-B - 2 * A) ≤ sd * sd := by
        rw [hsd2]
        nlinarith [mul_nonneg (by linarith : (0:ℝ) ≤ -(A + B + C)) hA.le]
      nlinarith [hsq, hsd0, ht]
  refine ⟨⟨hs1_nonneg, hs1_le⟩, ?_, ?_⟩
  · rw [div_le_div_iff_of_pos_right h2A]; linarith
  · have hmul : (-B - sd) / (2 * A) * (2 * A) = -B - sd :=
      div_mul_cancel₀ _ (ne_of_gt h2A)
    have hsd_eq : sd = -B - 2 * A * ((-B - sd) / (2 * A)) := by
      linear_combination hmul
    have hx := hsd2
    rw [hsd_eq] at hx
    have h4 : 4 * A * (A * ((-B - sd) / (2 * A) * ((-B - sd) / (2 * A))) +
        B * ((-B - sd) / (2 * A)) + C) = 0 := by linear_combination hx
    rcases mul_eq_zero.mp h4 with h | h
    · exact absurd h (by positivity)
    · exact h

lemma crossRefine_exact (R2 : ℝ) (r0 p : ℝ × ℝ)
    (hout : R2 < r0.1 * r0.1 + r0.2 * r0.2)
    (hin : p.1 * p.1 + p.2 * p.2 ≤ R2) :
    ∃ s : ℝ, (0 ≤ s ∧ s ≤ 1) ∧
      crossRefine R2 r0 p = (r0.1 + s * (p.1 - r0.1), r0.2 + s * (p.2 - r0.2)) ∧
      (r0.1 + s * (p.1 - r0.1)) * (r0.1 + s * (p.1 - r0.1)) +
        (r0.2 + s * (p.2 - r0.2)) * (r0.2 + s * (p.2 - r0.2)) = R2 := by
  simp only [crossRefine]
  set dx := p.1 - r0.1 with hdx
  set dy := p.2 - r0.2 with hdy
  set A := dx * dx + dy * dy with hA_def
  set B := 2 * (r0.1 * dx + r0.2 * dy) with hB_def
  set C := (r0.1 * r0.1 + r0.2 * r0.2) - R2 with hC_def
  have hC : 0 < C := by rw [hC_def]; linarith
  have hsum : A + B + C ≤ 0 := by
    have hid : A + B + C = p.1 * p.1 + p.2 * p.2 - R2 := by
      rw [hA_def, hB_def, hC_def, hdx, hdy]; ring
    linarith
  have hA : 0 < A := by
    rcases lt_or_le 0 A with h | h
    · exact h
    · exfalso
      have hdx2 : dx * dx = 0 := by nlinarith [mul_self_nonneg dx, mul_self_nonneg dy]
      have hdy2 : dy * dy = 0 := by nlinarith [mul_self_nonneg dx, mul_self_nonneg dy]
      have hdx0 : p.1 - r0.1 = 0 := by rw [← hdx]; exact mul_self_eq_zero.mp hdx2
      have hdy0 : p.2 - r0.2 = 0 := by rw [← hdy]; exact mul_self_eq_zero.mp hdy2
      have hp1 : p.1 = r0.1 := by linarith
      have hp2 : p.2 = r0.2 := by linarith
      rw [hp1, hp2] at hin
      linarith
  have hdisc : 0 ≤ B * B - 4 * A * C := quad_disc_nonneg A B C hA hC hsum
  obtain ⟨h1, hs12, hq⟩ := quad_smaller_root A B C (Real.sqrt (B * B - 4 * A * C))
    hA hC hsum (Real.sqrt_nonneg _) (Real.mul_self_sqrt hdisc)
  rw [if_pos hA, if_pos hdisc]
  refine ⟨(-B - Real.sqrt (B * B - 4 * A * C)) / (2 * A), h1, ?_, ?_⟩
  · rw [if_pos h1]
    by_cases h2 : 0 ≤ (-B + Real.sqrt (B * B - 4 * A * C)) / (2 * A) ∧
        (-B + Real.sqrt (B * B - 4 * A * C)) / (2 * A) ≤ 1
    · rw [if_pos h2, min_eq_left hs12]
    · rw [if_neg h2]
  · have hexp : ∀ s : ℝ, (r0.1 + s * dx) * (r0.1 + s * dx) +
        (r0.2 + s * dy) * (r0.2 + s * dy) =
          A * (s * s) + B * s + C + R2 := by
      intro s; rw [hA_def, hB_def, hC_def]; ring
    rw [hexp, hq, zero_add]

/-- Shared helper: lifting `crossRefine_exact` to the loop: a step entering
the circle from strictly outside makes the loop return a point of the step
segment lying exactly on the circle. -/
lemma impactLoop_exact (mu R2 max_d2 dt : ℝ) (n : ℕ) (st : VState)
    (hout : R2 < st.x * st.x + st.y * st.y)
    (hin : stepD2 dt st ≤ R2) :
    ∃ s : ℝ, (0 ≤ s ∧ s ≤ 1) ∧
      impactLoop mu R2 max_d2 dt (n + 1) st =
        some (st.x + s * ((stepPos dt st).1 - st.x),
          st.y + s * ((stepPos dt st).2 - st.y)) ∧
      (st.x + s * ((stepPos dt st).1 - st.x)) *
          (st.x + s * ((stepPos dt st).1 - st.x)) +
        (st.y + s * ((stepPos dt st).2 - st.y)) *
          (st.y + s * ((stepPos dt st).2 - st.y)) = R2 := by
  obtain ⟨s, hs, hcr, hon⟩ :=
    crossRefine_exact R2 (st.x, st.y) (stepPos dt st) hout hin
  refine ⟨s, hs, ?_, hon⟩
  simp only [impactLoop, if_pos hin]
  rw [hcr]

/-- Claim C6 (amended): whenever an integration step ends on or inside the
circle of radius R while its start lies strictly outside — in particular in
every zero-gravity head-on approach whose step lands inside — the
segment-interpolation refinement returns a point of that step segment lying
exactly on the circle (`x² + y² = R²`, zero radial discretization error);
and in the concrete case start (100, 0), velocity (−10, 0), R = 10, g = 0
with the default dt = 0.02 the call returns exactly the analytic
straight-line intersection (10, 0).  (The dt-independence asserted by the
original claim is refuted by `C6_counterexample`.) -/
theorem C6_refinement_exact :
    (∀ (mu R2 max_d2 dt : ℝ) (n : ℕ) (st : VState),
        R2 < st.x * st.x + st.y * st.y →
        stepD2 dt st ≤ R2 →
        ∃ s : ℝ, (0 ≤ s ∧ s ≤ 1) ∧
          impactLoop mu R2 max_d2 dt (n + 1) st =
            some (st.x + s * ((stepPos dt st).1 - st.x),
              st.y + s * ((stepPos dt st).2 - st.y)) ∧
          (st.x + s * ((stepPos dt st).1 - st.x)) *
              (st.x + s * ((stepPos dt st).1 - st.x)) +
            (st.y + s * ((stepPos dt st).2 - st.y)) *
              (st.y + s * ((stepPos dt st).2 - st.y)) = R2) ∧
      impactPoint 100 0 (-10) 0 10 0 0.02 100000 = some ((10:ℝ), (0:ℝ)) :=
  ⟨fun mu R2 max_d2 dt n st hout hin =>
    impactLoop_exact mu R2 max_d2 dt n st hout hin,
    straight_line_default_dt⟩

/-- Witness for the amended C6 at concrete inputs: one step from (11, 0)
with velocity (−4, 0), dt = 1 lands at (7, 0) inside the circle of radius
10, and the refined point lies exactly on that circle. -/
theorem C6_refinement_exact_witness :
    ((100:ℝ) < 11 * 11 + 0 * 0) ∧
      stepD2 1 ⟨11, 0, -4, 0, 0, 0⟩ ≤ 100 ∧
      (∃ s : ℝ, (0 ≤ s ∧ s ≤ 1) ∧
        impactLoop 7 100 123456 1 (2 + 1) ⟨11, 0, -4, 0, 0, 0⟩ =
          some ((11:ℝ) + s * ((stepPos 1 ⟨11, 0, -4, 0, 0, 0⟩).1 - 11),
            (0:ℝ) + s * ((stepPos 1 ⟨11, 0, -4, 0, 0, 0⟩).2 - 0)) ∧
        ((11:ℝ) + s * ((stepPos 1 ⟨11, 0, -4, 0, 0, 0⟩).1 - 11)) *
            ((11:ℝ) + s * ((stepPos 1 ⟨11, 0, -4, 0, 0, 0⟩).1 - 11)) +
          ((0:ℝ) + s * ((stepPos 1 ⟨11, 0, -4, 0, 0, 0⟩).2 - 0)) *
            ((0:ℝ) + s * ((stepPos 1 ⟨11, 0, -4, 0, 0, 0⟩).2 - 0)) = 100) :=
  ⟨by norm_num, by norm_num [stepD2, stepPos, halfVel],
    C6_refinement_exact.1 7 100 123456 1 2 ⟨11, 0, -4, 0, 0, 0⟩ (by norm_num)
      (by norm_num [stepD2, stepPos, halfVel])⟩

end PySFS
